import Mathlib

/-!
Verification of the Gambler's Ruin stepper engine (`src/script.js`).

The JavaScript numbers are modelled as exact rationals (`ℚ`); floating-point
rounding is out of scope, matching the spec's "within tolerance" phrasing.
Matrices are `List (List ℚ)` (JS arrays of arrays), vectors are `List ℚ`.
A JS exception (either the explicitly thrown dimension error or a TypeError
from reading a property of `undefined`) is modelled as `none` in `Option`.
Reading an array element that exists is exact; the model reads a missing
entry of a ragged row as `0` where JS would produce `NaN` — all statements
below either hypothesise rectangular matrices or use rectangular inputs,
so this difference is never exercised.
-/

/-- Entry `i j` of a list-of-rows matrix, with out-of-range default `0`. -/
def mget (A : List (List ℚ)) (i j : ℕ) : ℚ := (A.getD i []).getD j 0

/-- Entry `i` of a vector, with out-of-range default `0`. -/
def vget (v : List ℚ) (i : ℕ) : ℚ := v.getD i 0

/-- `A` is an `r × c` matrix: `r` rows, each of length `c`. -/
def IsMatrix (r c : ℕ) (A : List (List ℚ)) : Prop :=
  A.length = r ∧ ∀ row ∈ A, row.length = c

instance (r c : ℕ) (A : List (List ℚ)) : Decidable (IsMatrix r c A) := by
  unfold IsMatrix; infer_instance

/-- The identity matrix built inside `matrixPower` in `script.js`. -/
def identityMat (n : ℕ) : List (List ℚ) :=
  (List.range n).map fun i => (List.range n).map fun j => if i = j then 1 else 0

/-- The entry table produced by the triple loop of `matrixMultiply`
(`result[i][j] += A[i][k] * B[k][j]` for `k < A[0].length`). -/
def mulMat (A B : List (List ℚ)) : List (List ℚ) :=
  (List.range A.length).map fun i =>
    (List.range B.headI.length).map fun j =>
      ∑ k ∈ Finset.range A.headI.length, mget A i k * mget B k j

/-- `matrixMultiply` from `script.js`.  An empty `A` or `B` makes the JS code
throw on `A[0].length` / `B[0].length`; incompatible `colsA !== B.length`
throws the dimension error.  Both are `none`. -/
def matrixMultiply (A B : List (List ℚ)) : Option (List (List ℚ)) :=
  if A = [] ∨ B = [] then none
  else if A.headI.length = B.length then some (mulMat A B) else none

/-- The `while (exp > 0)` loop of `matrixPower`: on each pass, if
`exp % 2 === 1` multiply the accumulator by `base`, then square `base`
and replace `exp` by `Math.floor(exp / 2)`.  For positive `exp`, the JS
`exp % 2` equals `exp - 2 * Math.floor(exp / 2)`. -/
def powLoop (result base : List (List ℚ)) (exp : ℚ) : Option (List (List ℚ)) :=
  if h : 0 < exp then
    (if exp - 2 * (⌊exp / 2⌋ : ℚ) = 1 then matrixMultiply result base else some result).bind
      fun r => (matrixMultiply base base).bind
        fun b => powLoop r b (⌊exp / 2⌋ : ℚ)
  else some result
termination_by (⌈exp⌉).toNat
decreasing_by
  simp only [Int.ceil_intCast]
  have h2 : ((⌊exp / 2⌋ : ℤ) : ℚ) ≤ exp / 2 := Int.floor_le _
  have h3 : exp / 2 < exp := by linarith
  have h4 : exp ≤ ((⌈exp⌉ : ℤ) : ℚ) := Int.le_ceil _
  have h1 : (⌊exp / 2⌋ : ℤ) < ⌈exp⌉ := by exact_mod_cast lt_of_le_of_lt h2 (lt_of_lt_of_le h3 h4)
  have h5 : (0 : ℤ) < ⌈exp⌉ := by exact_mod_cast lt_of_lt_of_le h h4
  omega

/-- `matrixPower` from `script.js`.  Note: there is no validation of `k`;
`k === 0` returns the identity, `k === 1` returns `M` itself, anything else
enters the loop (which is skipped entirely when `k < 0`).  The JS deep copy
`M.map(row => [...row])` is value-equal to `M`. -/
def matrixPower (M : List (List ℚ)) (k : ℚ) : Option (List (List ℚ)) :=
  if k = 0 then some (identityMat M.length)
  else if k = 1 then some M
  else powLoop (identityMat M.length) M k

/-- One iteration of the row-filling loop of `generateTransitionMatrix`:
rows `0` and `N` get `matrix[i][i] = 1`; an interior row gets
`matrix[i][i+1] = p` and then `matrix[i][i-1] = q` with `q = 1 - p`. -/
def genRowStep (N : ℕ) (p : ℚ) (m : List (List ℚ)) (i : ℕ) : List (List ℚ) :=
  if i = 0 ∨ i = N then m.set i ((m.getD i []).set i 1)
  else m.set i (((m.getD i []).set (i + 1) p).set (i - 1) (1 - p))

/-- `generateTransitionMatrix` from `script.js`: start from the
`(N+1) × (N+1)` zero matrix and fill each row in the `for` loop. -/
def generateTransitionMatrix (N : ℕ) (p : ℚ) : List (List ℚ) :=
  (List.range (N + 1)).foldl (genRowStep N p)
    (List.replicate (N + 1) (List.replicate (N + 1) (0 : ℚ)))

/-- The row that the `generateTransitionMatrix` loop writes at index `i`
(used to characterise the fold): absorbing rows set only the diagonal,
interior rows set `i+1` to `p` and `i-1` to `q = 1-p` in a zero row. -/
def targetRow (N : ℕ) (p : ℚ) (i : ℕ) : List ℚ :=
  if i = 0 ∨ i = N then (List.replicate (N + 1) (0 : ℚ)).set i 1
  else ((List.replicate (N + 1) (0 : ℚ)).set (i + 1) p).set (i - 1) (1 - p)

/-- `generateInitialVector` from `script.js`: a zero vector of length `N+1`
with `vector[n] = 1` written only when `0 <= n <= N`. -/
def generateInitialVector (N : ℕ) (n : ℤ) : List ℚ :=
  let vector := List.replicate (N + 1) (0 : ℚ)
  if 0 ≤ n ∧ n ≤ N then vector.set n.toNat 1 else vector

/-- The entry table produced by the double loop of `vectorMatrixMultiply`
(`result[j] += v[i] * M[i][j]` for `i < v.length`, `j < M[0].length`). -/
def vmmTotal (v : List ℚ) (M : List (List ℚ)) : List ℚ :=
  (List.range M.headI.length).map fun j =>
    ∑ i ∈ Finset.range v.length, vget v i * mget M i j

/-- `vectorMatrixMultiply` from `script.js`.  There is no dimension check:
an empty `M` throws on `M[0].length`; if the inner loop reaches a row index
`i ≥ M.length` (that is, `v` is longer than `M` and there is at least one
column) it throws on `M[i][j]`; otherwise it returns the computed result,
even when `v` is shorter than `M`. -/
def vectorMatrixMultiply (v : List ℚ) (M : List (List ℚ)) : Option (List ℚ) :=
  if M = [] then none
  else if 0 < M.headI.length ∧ M.length < v.length then none
  else some (vmmTotal v M)

/-- Reference matrix power: `refPow M k = M^k` by `k` successive
right-multiplications, used to state what the squaring loop computes. -/
def refPow (M : List (List ℚ)) : ℕ → List (List ℚ)
  | 0 => identityMat M.length
  | k + 1 => mulMat (refPow M k) M

/-- Applying `vectorMatrixMultiply` with the one-step matrix `M`
sequentially `k` times — the slow reference for `advanceSteps`. -/
def seqSteps (M : List (List ℚ)) : ℕ → List ℚ → Option (List ℚ)
  | 0, v => some v
  | k + 1, v => (vectorMatrixMultiply v M).bind (seqSteps M k)

/-- The module-level simulation state of `script.js`
(`N_global`, `n_global`, `p_global`, `currentStep`, `transitionMatrix`,
`currentVector`). -/
structure SimState where
  Nglob : ℤ
  nglob : ℤ
  pglob : ℚ
  currentStep : ℚ
  transitionMatrix : List (List ℚ)
  currentVector : List ℚ
deriving DecidableEq

/-- The coercion at the top of `advanceSteps`:
`if (k < 1 || isNaN(k)) k = 1;`.  A non-numeric / NaN argument is `none`
(every comparison with NaN is false, `isNaN` is true). -/
def coerceStep (k : Option ℚ) : ℚ :=
  match k with
  | none => 1
  | some x => if x < 1 then 1 else x

/-- `advanceSteps` from `script.js`: coerce `k`, compute `P^k`, replace the
current vector by `currentVector * P^k` and add `k` to the step counter.
Display updates are presentation glue and out of scope. -/
def advanceSteps (k : Option ℚ) (s : SimState) : Option SimState :=
  (matrixPower s.transitionMatrix (coerceStep k)).bind fun Pk =>
    (vectorMatrixMultiply s.currentVector Pk).bind fun v2 =>
      some ⟨s.Nglob, s.nglob, s.pglob, s.currentStep + coerceStep k,
            s.transitionMatrix, v2⟩

/-! Basic access and summation helpers. -/

lemma getD_eq_getElem {α : Type} {l : List α} {i : ℕ} (d : α) (h : i < l.length) :
    l.getD i d = l[i] := by
  simp [List.getD_eq_getElem?_getD, List.getElem?_eq_getElem h]

lemma getD_map_range {α : Type} (f : ℕ → α) {n i : ℕ} (d : α) (h : i < n) :
    ((List.range n).map f).getD i d = f i := by
  simp [List.getD_eq_getElem?_getD, List.getElem?_range h]

lemma sum_getD (l : List ℚ) : l.sum = ∑ j ∈ Finset.range l.length, l.getD j 0 := by
  induction l with
  | nil => simp
  | cons a t ih => simp [Finset.sum_range_succ', ih, add_comm]

lemma headI_mem {α : Type} [Inhabited α] {l : List α} (h : l ≠ []) : l.headI ∈ l := by
  cases l with
  | nil => exact absurd rfl h
  | cons a t => simp [List.headI]

lemma headI_length {r c : ℕ} {A : List (List ℚ)} (hA : IsMatrix r c A) (hr : 0 < r) :
    A.headI.length = c := by
  have hne : A ≠ [] := by
    intro h
    rw [h] at hA
    simp [IsMatrix] at hA
    omega
  exact hA.2 _ (headI_mem hne)

lemma mat_ext {r c : ℕ} {A B : List (List ℚ)} (hA : IsMatrix r c A) (hB : IsMatrix r c B)
    (h : ∀ i, i < r → ∀ j, j < c → mget A i j = mget B i j) : A = B := by
  obtain ⟨hAl, hAr⟩ := hA
  obtain ⟨hBl, hBr⟩ := hB
  apply List.ext_getElem (hAl.trans hBl.symm)
  intro i h1 h2
  have hcA : A[i].length = c := hAr _ (List.getElem_mem h1)
  have hcB : B[i].length = c := hBr _ (List.getElem_mem h2)
  apply List.ext_getElem (hcA.trans hcB.symm)
  intro j hj1 hj2
  have hmm := h i (by omega) j (by omega)
  unfold mget at hmm
  rwa [getD_eq_getElem _ h1, getD_eq_getElem _ h2,
       getD_eq_getElem _ hj1, getD_eq_getElem _ hj2] at hmm

/-! Structure of `mulMat` and the identity matrix. -/

lemma length_mulMat (A B : List (List ℚ)) : (mulMat A B).length = A.length := by
  simp [mulMat]

lemma mget_mulMat {a b c : ℕ} {A B : List (List ℚ)} (hA : IsMatrix a b A)
    (hB : IsMatrix b c B) (ha : 0 < a) (hb : 0 < b) {i j : ℕ} (hi : i < a) (hj : j < c) :
    mget (mulMat A B) i j = ∑ k ∈ Finset.range b, mget A i k * mget B k j := by
  unfold mulMat mget
  rw [getD_map_range _ _ (by rw [hA.1]; exact hi : i < A.length),
      getD_map_range _ _ (by rw [headI_length hB hb]; exact hj : j < B.headI.length),
      headI_length hA ha]

lemma isMatrix_mulMat {a b c : ℕ} {A B : List (List ℚ)} (hA : IsMatrix a b A)
    (hB : IsMatrix b c B) (ha : 0 < a) (hb : 0 < b) : IsMatrix a c (mulMat A B) := by
  constructor
  · rw [length_mulMat, hA.1]
  · intro row hrow
    simp only [mulMat, List.mem_map] at hrow
    obtain ⟨i, _, hrow⟩ := hrow
    rw [← hrow]
    simp [headI_length hB hb]

lemma isMatrix_identityMat (n : ℕ) : IsMatrix n n (identityMat n) := by
  constructor
  · simp [identityMat]
  · intro row hrow
    simp only [identityMat, List.mem_map] at hrow
    obtain ⟨i, _, hrow⟩ := hrow
    rw [← hrow]
    simp

lemma mget_identityMat {n i j : ℕ} (hi : i < n) (hj : j < n) :
    mget (identityMat n) i j = if i = j then 1 else 0 := by
  unfold identityMat mget
  rw [getD_map_range _ _ (by omega : i < n), getD_map_range _ _ (by omega : j < n)]

lemma id_mul {r c : ℕ} {A : List (List ℚ)} (hA : IsMatrix r c A) (hr : 0 < r) :
    mulMat (identityMat r) A = A := by
  apply mat_ext (isMatrix_mulMat (isMatrix_identityMat r) hA hr hr) hA
  intro i hi j hj
  rw [mget_mulMat (isMatrix_identityMat r) hA hr hr hi hj]
  rw [Finset.sum_eq_single i]
  · rw [mget_identityMat hi hi, if_pos rfl, one_mul]
  · intro k hk hki
    rw [mget_identityMat hi (Finset.mem_range.mp hk), if_neg (fun h => hki h.symm), zero_mul]
  · intro hmem
    exact absurd (Finset.mem_range.mpr hi) hmem

lemma mul_id {r c : ℕ} {A : List (List ℚ)} (hA : IsMatrix r c A) (hr : 0 < r) (hc : 0 < c) :
    mulMat A (identityMat c) = A := by
  apply mat_ext (isMatrix_mulMat hA (isMatrix_identityMat c) hr hc) hA
  intro i hi j hj
  rw [mget_mulMat hA (isMatrix_identityMat c) hr hc hi hj]
  rw [Finset.sum_eq_single j]
  · rw [mget_identityMat hj hj, if_pos rfl, mul_one]
  · intro k hk hkj
    rw [mget_identityMat (Finset.mem_range.mp hk) hj, if_neg hkj, mul_zero]
  · intro hmem
    exact absurd (Finset.mem_range.mpr hj) hmem

lemma mulMat_assoc {a b c d : ℕ} {A B C : List (List ℚ)} (hA : IsMatrix a b A)
    (hB : IsMatrix b c B) (hC : IsMatrix c d C) (ha : 0 < a) (hb : 0 < b) (hc : 0 < c) :
    mulMat (mulMat A B) C = mulMat A (mulMat B C) := by
  apply mat_ext (isMatrix_mulMat (isMatrix_mulMat hA hB ha hb) hC ha hc)
    (isMatrix_mulMat hA (isMatrix_mulMat hB hC hb hc) ha hb)
  intro i hi j hj
  rw [mget_mulMat (isMatrix_mulMat hA hB ha hb) hC ha hc hi hj,
      mget_mulMat hA (isMatrix_mulMat hB hC hb hc) ha hb hi hj]
  have hL : ∑ k ∈ Finset.range c, mget (mulMat A B) i k * mget C k j
      = ∑ k ∈ Finset.range c, ∑ l ∈ Finset.range b, mget A i l * mget B l k * mget C k j :=
    Finset.sum_congr rfl fun k hk => by
      rw [mget_mulMat hA hB ha hb hi (Finset.mem_range.mp hk), Finset.sum_mul]
  have hR : ∑ l ∈ Finset.range b, mget A i l * mget (mulMat B C) l j
      = ∑ l ∈ Finset.range b, ∑ k ∈ Finset.range c, mget A i l * (mget B l k * mget C k j) :=
    Finset.sum_congr rfl fun l hl => by
      rw [mget_mulMat hB hC hb hc (Finset.mem_range.mp hl) hj, Finset.mul_sum]
  rw [hL, hR, Finset.sum_comm]
  exact Finset.sum_congr rfl fun l _ => Finset.sum_congr rfl fun k _ => mul_assoc _ _ _

/-! Reference power and its algebra (square matrices of positive size). -/

lemma isMatrix_refPow {n : ℕ} {M : List (List ℚ)} (hM : IsMatrix n n M) (hn : 0 < n) :
    ∀ k, IsMatrix n n (refPow M k) := by
  intro k
  induction k with
  | zero => rw [refPow, hM.1]; exact isMatrix_identityMat n
  | succ k ih => exact isMatrix_mulMat ih hM hn hn

lemma refPow_one {n : ℕ} {M : List (List ℚ)} (hM : IsMatrix n n M) (hn : 0 < n) :
    refPow M 1 = M := by
  show mulMat (refPow M 0) M = M
  rw [refPow, hM.1]
  exact id_mul hM hn

lemma refPow_succ_left {n : ℕ} {M : List (List ℚ)} (hM : IsMatrix n n M) (hn : 0 < n) :
    ∀ k, mulMat M (refPow M k) = refPow M (k + 1) := by
  intro k
  induction k with
  | zero =>
    show mulMat M (refPow M 0) = mulMat (refPow M 0) M
    rw [refPow, hM.1, mul_id hM hn hn, id_mul hM hn]
  | succ k ih =>
    calc mulMat M (refPow M (k + 1)) = mulMat M (mulMat (refPow M k) M) := rfl
      _ = mulMat (mulMat M (refPow M k)) M :=
          (mulMat_assoc hM (isMatrix_refPow hM hn k) hM hn hn hn).symm
      _ = mulMat (refPow M (k + 1)) M := by rw [ih]
      _ = refPow M (k + 1 + 1) := rfl

lemma refPow_add {n : ℕ} {M : List (List ℚ)} (hM : IsMatrix n n M) (hn : 0 < n)
    (a : ℕ) : ∀ b, refPow M (a + b) = mulMat (refPow M a) (refPow M b) := by
  intro b
  induction b with
  | zero =>
    show refPow M (a + 0) = mulMat (refPow M a) (identityMat M.length)
    rw [hM.1, mul_id (isMatrix_refPow hM hn a) hn hn, Nat.add_zero]
  | succ b ih =>
    calc refPow M (a + (b + 1)) = mulMat (refPow M (a + b)) M := rfl
      _ = mulMat (mulMat (refPow M a) (refPow M b)) M := by rw [ih]
      _ = mulMat (refPow M a) (mulMat (refPow M b) M) :=
          mulMat_assoc (isMatrix_refPow hM hn a) (isMatrix_refPow hM hn b) hM hn hn hn
      _ = mulMat (refPow M a) (refPow M (b + 1)) := rfl

lemma refPow_sq {n : ℕ} {M : List (List ℚ)} (hM : IsMatrix n n M) (hn : 0 < n) :
    ∀ k, refPow (mulMat M M) k = refPow M (2 * k) := by
  intro k
  induction k with
  | zero =>
    show identityMat (mulMat M M).length = identityMat M.length
    rw [length_mulMat]
  | succ k ih =>
    show mulMat (refPow (mulMat M M) k) (mulMat M M) = refPow M (2 * (k + 1))
    have h2 : (2 * (k + 1)) = 2 * k + (1 + 1) := by ring
    rw [ih, h2, refPow_add hM hn (2 * k), refPow_add hM hn 1, refPow_one hM hn]

/-! What `matrixMultiply` and the squaring loop compute on well-formed input. -/

lemma matrixMultiply_eq_some {a b c : ℕ} {A B : List (List ℚ)} (hA : IsMatrix a b A)
    (hB : IsMatrix b c B) (ha : 0 < a) (hb : 0 < b) :
    matrixMultiply A B = some (mulMat A B) := by
  have hAne : A ≠ [] := by
    intro h
    rw [h] at hA
    simp [IsMatrix] at hA
    omega
  have hBne : B ≠ [] := by
    intro h
    rw [h] at hB
    simp [IsMatrix] at hB
    omega
  unfold matrixMultiply
  rw [if_neg (by simp [hAne, hBne]), if_pos (by rw [headI_length hA ha, hB.1])]

lemma natCast_split (e : ℕ) : (e : ℚ) = 2 * ((e / 2 : ℕ) : ℚ) + ((e % 2 : ℕ) : ℚ) := by
  have h1 : e = 2 * (e / 2) + e % 2 := (Nat.div_add_mod e 2).symm
  exact_mod_cast congrArg (fun x : ℕ => (x : ℚ)) h1

lemma floor_half_natCast (e : ℕ) : ⌊(e : ℚ) / 2⌋ = ((e / 2 : ℕ) : ℤ) := by
  have h2 : e % 2 < 2 := Nat.mod_lt _ two_pos
  have h3 : (0 : ℚ) ≤ ((e % 2 : ℕ) : ℚ) := by positivity
  have h4 : ((e % 2 : ℕ) : ℚ) < 2 := by exact_mod_cast h2
  rw [Int.floor_eq_iff]
  constructor
  · show (((e / 2 : ℕ) : ℤ) : ℚ) ≤ (e : ℚ) / 2
    rw [Int.cast_natCast, natCast_split e]
    linarith
  · show (e : ℚ) / 2 < (((e / 2 : ℕ) : ℤ) : ℚ) + 1
    rw [Int.cast_natCast, natCast_split e]
    linarith

lemma bit_of_natCast (e : ℕ) : (e : ℚ) - 2 * (⌊(e : ℚ) / 2⌋ : ℚ) = ((e % 2 : ℕ) : ℚ) := by
  rw [floor_half_natCast, Int.cast_natCast, natCast_split e]
  ring

lemma powLoop_nonpos (r b : List (List ℚ)) (e : ℚ) (h : ¬ 0 < e) :
    powLoop r b e = some r := by
  rw [powLoop]
  exact dif_neg h

lemma powLoop_spec {n : ℕ} (hn : 0 < n) :
    ∀ (e : ℕ) (r b : List (List ℚ)), IsMatrix n n r → IsMatrix n n b →
      powLoop r b (e : ℚ) = some (mulMat r (refPow b e)) := by
  intro e
  induction e using Nat.strong_induction_on with
  | _ e ih =>
    intro r b hr hb
    rcases Nat.eq_zero_or_pos e with he | he
    · subst he
      rw [powLoop_nonpos r b _ (by norm_num)]
      show some r = some (mulMat r (identityMat b.length))
      rw [hb.1, mul_id hr hn hn]
    · rw [powLoop, dif_pos (by exact_mod_cast he : (0 : ℚ) < (e : ℚ))]
      have hfl : ((⌊(e : ℚ) / 2⌋ : ℤ) : ℚ) = ((e / 2 : ℕ) : ℚ) := by
        rw [floor_half_natCast, Int.cast_natCast]
      have hbit : ((e : ℚ) - 2 * (⌊(e : ℚ) / 2⌋ : ℚ) = 1) ↔ (e % 2 = 1) := by
        rw [bit_of_natCast]
        norm_cast
      have hbb : matrixMultiply b b = some (mulMat b b) :=
        matrixMultiply_eq_some hb hb hn hn
      have hrec := ih (e / 2) (Nat.div_lt_self he one_lt_two)
      rcases Nat.even_or_odd e with heven | hodd
      · have hev : e % 2 = 0 := Nat.even_iff.mp heven
        have hbit0 : ¬ ((e : ℚ) - 2 * (⌊(e : ℚ) / 2⌋ : ℚ) = 1) := by
          rw [hbit]
          omega
        rw [if_neg hbit0]
        simp only [Option.bind_some, Option.some_bind, hbb, hfl]
        rw [hrec r (mulMat b b) hr (isMatrix_mulMat hb hb hn hn),
            refPow_sq hb hn, Nat.two_mul_div_two_of_even heven]
      · have hod : e % 2 = 1 := Nat.odd_iff.mp hodd
        have hbit1 : (e : ℚ) - 2 * (⌊(e : ℚ) / 2⌋ : ℚ) = 1 := by
          rw [hbit]
          omega
        rw [if_pos hbit1, matrixMultiply_eq_some hr hb hn hn]
        simp only [Option.some_bind, hbb, hfl]
        rw [hrec (mulMat r b) (mulMat b b) (isMatrix_mulMat hr hb hn hn)
              (isMatrix_mulMat hb hb hn hn),
            refPow_sq hb hn]
        have hassoc := mulMat_assoc hr hb (isMatrix_refPow hb hn (2 * (e / 2))) hn hn hn
        rw [hassoc, refPow_succ_left hb hn (2 * (e / 2)),
            (show 2 * (e / 2) + 1 = e by omega)]

lemma matrixPower_natCast {n : ℕ} {M : List (List ℚ)} (hM : IsMatrix n n M) (hn : 0 < n)
    (k : ℕ) : matrixPower M (k : ℚ) = some (refPow M k) := by
  unfold matrixPower
  rcases Nat.eq_zero_or_pos k with hk | hk
  · subst hk
    rw [if_pos (by norm_num), refPow, hM.1]
  · rcases Nat.lt_or_ge k 2 with hk2 | hk2
    · have hk1 : k = 1 := by omega
      subst hk1
      rw [if_neg (by norm_num), if_pos (by norm_num), refPow_one hM hn]
    · rw [if_neg (by exact_mod_cast by omega : ¬ ((k : ℚ) = 0)),
          if_neg (by exact_mod_cast by omega : ¬ ((k : ℚ) = 1))]
      have hid : identityMat M.length = identityMat n := by rw [hM.1]
      rw [hid, powLoop_spec hn k (identityMat n) M (isMatrix_identityMat n) hM,
          id_mul (isMatrix_refPow hM hn k) hn]

/-! Vector propagation. -/

lemma length_vmmTotal (v : List ℚ) (M : List (List ℚ)) :
    (vmmTotal v M).length = M.headI.length := by
  simp [vmmTotal]

lemma vget_vmmTotal (v : List ℚ) (M : List (List ℚ)) {j : ℕ} (hj : j < M.headI.length) :
    vget (vmmTotal v M) j = ∑ i ∈ Finset.range v.length, vget v i * mget M i j := by
  unfold vmmTotal vget
  rw [getD_map_range _ _ hj]

lemma vectorMatrixMultiply_eq_some {v : List ℚ} {M : List (List ℚ)} (hM : M ≠ [])
    (hlen : v.length ≤ M.length) : vectorMatrixMultiply v M = some (vmmTotal v M) := by
  unfold vectorMatrixMultiply
  rw [if_neg hM, if_neg (by omega : ¬ (0 < M.headI.length ∧ M.length < v.length))]

lemma vmmTotal_id {n : ℕ} {v : List ℚ} (hn : 0 < n) (hv : v.length = n) :
    vmmTotal v (identityMat n) = v := by
  have hid := isMatrix_identityMat n
  apply List.ext_getElem (by rw [length_vmmTotal, headI_length hid hn, hv])
  intro j hj1 hj2
  have hjn : j < n := by
    rw [length_vmmTotal, headI_length hid hn] at hj1
    exact hj1
  rw [← getD_eq_getElem 0 hj1, ← getD_eq_getElem 0 hj2]
  show vget (vmmTotal v (identityMat n)) j = vget v j
  rw [vget_vmmTotal _ _ (by rw [headI_length hid hn]; exact hjn)]
  rw [Finset.sum_eq_single j]
  · rw [mget_identityMat hjn hjn, if_pos rfl, mul_one]
  · intro k hk hkj
    rw [mget_identityMat (by have := Finset.mem_range.mp hk; omega) hjn,
        if_neg hkj, mul_zero]
  · intro hmem
    exact absurd (Finset.mem_range.mpr (by omega)) hmem

lemma vmmTotal_assoc {a b c : ℕ} {v : List ℚ} {A B : List (List ℚ)}
    (hA : IsMatrix a b A) (hB : IsMatrix b c B) (ha : 0 < a) (hb : 0 < b)
    (hv : v.length = a) : vmmTotal v (mulMat A B) = vmmTotal (vmmTotal v A) B := by
  have hAB := isMatrix_mulMat hA hB ha hb
  apply List.ext_getElem (by rw [length_vmmTotal, length_vmmTotal,
    headI_length hAB ha, headI_length hB hb])
  intro j hj1 hj2
  have hjc : j < c := by
    rw [length_vmmTotal, headI_length hAB ha] at hj1
    exact hj1
  rw [← getD_eq_getElem 0 hj1, ← getD_eq_getElem 0 hj2]
  show vget (vmmTotal v (mulMat A B)) j = vget (vmmTotal (vmmTotal v A) B) j
  rw [vget_vmmTotal _ _ (by rw [headI_length hAB ha]; exact hjc),
      vget_vmmTotal _ _ (by rw [headI_length hB hb]; exact hjc)]
  rw [length_vmmTotal, headI_length hA ha, hv]
  have hL : ∑ i ∈ Finset.range a, vget v i * mget (mulMat A B) i j
      = ∑ i ∈ Finset.range a, ∑ k ∈ Finset.range b, vget v i * (mget A i k * mget B k j) :=
    Finset.sum_congr rfl fun i hi => by
      rw [mget_mulMat hA hB ha hb (Finset.mem_range.mp hi) hjc, Finset.mul_sum]
  have hR : ∑ k ∈ Finset.range b, vget (vmmTotal v A) k * mget B k j
      = ∑ k ∈ Finset.range b, ∑ i ∈ Finset.range a, vget v i * mget A i k * mget B k j :=
    Finset.sum_congr rfl fun k hk => by
      rw [vget_vmmTotal _ _ (by rw [headI_length hA ha]; exact Finset.mem_range.mp hk), hv,
          Finset.sum_mul]
  rw [hL, hR, Finset.sum_comm]
  exact Finset.sum_congr rfl fun i _ => Finset.sum_congr rfl fun k _ => (mul_assoc _ _ _).symm

/-! `matrixPower` with a negative exponent: the loop never runs. -/

lemma matrixPower_neg (M : List (List ℚ)) {k : ℚ} (hk : k < 0) :
    matrixPower M k = some (identityMat M.length) := by
  unfold matrixPower
  rw [if_neg (by intro h; rw [h] at hk; exact absurd hk (by norm_num)),
      if_neg (by intro h; rw [h] at hk; exact absurd hk (by norm_num)),
      powLoop_nonpos _ _ _ (by linarith)]

/-! Characterisation of the `generateTransitionMatrix` fold. -/

lemma getD_set_self {α : Type} (l : List α) {i : ℕ} (a d : α) (h : i < l.length) :
    (l.set i a).getD i d = a := by
  simp [List.getD_eq_getElem?_getD, List.getElem?_set_self h]

lemma getD_set_ne {α : Type} (l : List α) {i j : ℕ} (a d : α) (h : i ≠ j) :
    (l.set i a).getD j d = l.getD j d := by
  simp [List.getD_eq_getElem?_getD, List.getElem?_set_ne h]

lemma getD_replicate {α : Type} {n i : ℕ} (c d : α) (h : i < n) :
    (List.replicate n c).getD i d = c := by
  simp [List.getD_eq_getElem?_getD, List.getElem?_replicate, h]

lemma genRowStep_length {N : ℕ} {p : ℚ} (m : List (List ℚ)) (i : ℕ) :
    (genRowStep N p m i).length = m.length := by
  unfold genRowStep
  split <;> simp

lemma genRowStep_getD_self {N : ℕ} {p : ℚ} (m : List (List ℚ)) {i : ℕ} (h : i < m.length) :
    (genRowStep N p m i).getD i [] =
      if i = 0 ∨ i = N then (m.getD i []).set i 1
      else ((m.getD i []).set (i + 1) p).set (i - 1) (1 - p) := by
  unfold genRowStep
  by_cases hc : i = 0 ∨ i = N
  · rw [if_pos hc, if_pos hc, getD_set_self _ _ _ h]
  · rw [if_neg hc, if_neg hc, getD_set_self _ _ _ h]

lemma genRowStep_getD_ne {N : ℕ} {p : ℚ} (m : List (List ℚ)) {i r : ℕ} (h : i ≠ r) :
    (genRowStep N p m i).getD r [] = m.getD r [] := by
  unfold genRowStep
  split <;> exact getD_set_ne _ _ _ h

lemma genT_fold (N : ℕ) (p : ℚ) : ∀ t, t ≤ N + 1 →
    ((List.range t).foldl (genRowStep N p)
        (List.replicate (N + 1) (List.replicate (N + 1) (0 : ℚ)))).length = N + 1 ∧
    ∀ r, r < N + 1 →
      ((List.range t).foldl (genRowStep N p)
          (List.replicate (N + 1) (List.replicate (N + 1) (0 : ℚ)))).getD r []
        = if r < t then targetRow N p r else List.replicate (N + 1) (0 : ℚ) := by
  intro t
  induction t with
  | zero =>
    intro _
    constructor
    · simp
    · intro r hr
      rw [if_neg (by omega)]
      simp only [List.range_zero, List.foldl_nil]
      exact getD_replicate _ _ hr
  | succ t ih =>
    intro ht
    obtain ⟨ihlen, ihget⟩ := ih (by omega)
    rw [List.range_succ, List.foldl_append, List.foldl_cons, List.foldl_nil]
    have hmt : ((List.range t).foldl (genRowStep N p)
        (List.replicate (N + 1) (List.replicate (N + 1) (0 : ℚ)))).getD t []
        = List.replicate (N + 1) (0 : ℚ) := by
      rw [ihget t (by omega), if_neg (lt_irrefl t)]
    have htlen : t < ((List.range t).foldl (genRowStep N p)
        (List.replicate (N + 1) (List.replicate (N + 1) (0 : ℚ)))).length := by
      omega
    constructor
    · rw [genRowStep_length, ihlen]
    · intro r hr
      rcases eq_or_ne r t with hrt | hrt
      · subst hrt
        rw [if_pos (by omega), genRowStep_getD_self _ htlen, hmt]
        rfl
      · rw [genRowStep_getD_ne _ (fun h => hrt h.symm), ihget r hr]
        rcases Nat.lt_or_ge r t with h1 | h1
        · rw [if_pos h1, if_pos (by omega)]
        · rw [if_neg (by omega), if_neg (by omega)]

lemma genT_length (N : ℕ) (p : ℚ) : (generateTransitionMatrix N p).length = N + 1 :=
  (genT_fold N p (N + 1) le_rfl).1

lemma genT_row {N : ℕ} {p : ℚ} {r : ℕ} (hr : r < N + 1) :
    (generateTransitionMatrix N p).getD r [] = targetRow N p r := by
  have h := (genT_fold N p (N + 1) le_rfl).2 r hr
  rwa [if_pos hr] at h

lemma targetRow_length (N : ℕ) (p : ℚ) (i : ℕ) : (targetRow N p i).length = N + 1 := by
  unfold targetRow
  split <;> simp

lemma isMatrix_genT (N : ℕ) (p : ℚ) :
    IsMatrix (N + 1) (N + 1) (generateTransitionMatrix N p) := by
  refine ⟨genT_length N p, ?_⟩
  intro row hrow
  obtain ⟨r, hr, hrow⟩ := List.mem_iff_getElem.mp hrow
  have hrN : r < N + 1 := by rw [genT_length] at hr; exact hr
  rw [← hrow, ← getD_eq_getElem [] hr, genT_row hrN, targetRow_length]

lemma mget_genT {N : ℕ} {p : ℚ} {r j : ℕ} (hr : r < N + 1) (hj : j < N + 1) :
    mget (generateTransitionMatrix N p) r j
      = if r = 0 ∨ r = N then (if j = r then 1 else 0)
        else if j = r - 1 then 1 - p else if j = r + 1 then p else 0 := by
  unfold mget
  rw [genT_row hr]
  unfold targetRow
  split
  · rcases eq_or_ne j r with hjr | hjr
    · subst hjr
      rw [if_pos rfl, getD_set_self _ _ _ (by simp; omega)]
    · rw [if_neg hjr, getD_set_ne _ _ _ (fun h => hjr h.symm), getD_replicate _ _ hj]
  · rename_i hint
    have h1 : ¬ (r = 0 ∨ r = N) := hint
    have hr0 : 0 < r := by omega
    have hrN : r < N := by omega
    rcases eq_or_ne j (r - 1) with hj1 | hj1
    · subst hj1
      rw [if_pos rfl, getD_set_self _ _ _ (by simp; omega)]
    · rw [getD_set_ne _ _ _ (fun h => hj1 h.symm), if_neg hj1]
      rcases eq_or_ne j (r + 1) with hj2 | hj2
      · subst hj2
        rw [if_pos rfl, getD_set_self _ _ _ (by simp; omega)]
      · rw [if_neg hj2, getD_set_ne _ _ _ (fun h => hj2 h.symm), getD_replicate _ _ hj]

lemma targetRow_sum {N : ℕ} (p : ℚ) {r : ℕ} (hr : r < N + 1) :
    ((generateTransitionMatrix N p).getD r []).sum = 1 := by
  rw [sum_getD, genT_row hr, targetRow_length]
  have hentry : ∀ j ∈ Finset.range (N + 1), (targetRow N p r).getD j 0
      = mget (generateTransitionMatrix N p) r j := by
    intro j _
    unfold mget
    rw [genT_row hr]
  rw [Finset.sum_congr rfl fun j hj => by
    rw [hentry j hj, mget_genT hr (Finset.mem_range.mp hj)]]
  rcases Classical.em (r = 0 ∨ r = N) with habs | hint
  · rw [Finset.sum_congr rfl fun j _ => by rw [if_pos habs]]
    rw [Finset.sum_ite_eq' (Finset.range (N + 1)) r fun _ => (1 : ℚ)]
    rw [if_pos (Finset.mem_range.mpr hr)]
  · have hr0 : 0 < r := by omega
    have hrN : r < N := by omega
    have hsplit : ∀ j ∈ Finset.range (N + 1),
        (if r = 0 ∨ r = N then (if j = r then (1 : ℚ) else 0)
         else if j = r - 1 then 1 - p else if j = r + 1 then p else 0)
        = (if j = r - 1 then 1 - p else 0) + (if j = r + 1 then p else 0) := by
      intro j _
      rw [if_neg hint]
      rcases eq_or_ne j (r - 1) with h1 | h1
      · subst h1
        rw [if_pos rfl, if_pos rfl, if_neg (by omega), add_zero]
      · rw [if_neg h1, if_neg h1]
        rcases eq_or_ne j (r + 1) with h2 | h2
        · subst h2
          rw [if_pos rfl, zero_add]
        · rw [if_neg h2, add_zero]
    rw [Finset.sum_congr rfl hsplit, Finset.sum_add_distrib,
        Finset.sum_ite_eq' (Finset.range (N + 1)) (r - 1) fun _ => (1 - p : ℚ),
        Finset.sum_ite_eq' (Finset.range (N + 1)) (r + 1) fun _ => (p : ℚ),
        if_pos (Finset.mem_range.mpr (by omega)),
        if_pos (Finset.mem_range.mpr (by omega))]
    ring

/-! Remaining helpers: nonemptiness, the initial vector, powers of the
identity, and the sequential reference run. -/

lemma isMatrix_ne_nil {n c : ℕ} {M : List (List ℚ)} (hM : IsMatrix n c M) (hn : 0 < n) :
    M ≠ [] := by
  intro h
  rw [h] at hM
  simp [IsMatrix] at hM
  omega

lemma genIV_length (N : ℕ) (n : ℤ) : (generateInitialVector N n).length = N + 1 := by
  unfold generateInitialVector
  split <;> simp

lemma vget_genIV_in {N : ℕ} {n : ℤ} (h0 : 0 ≤ n) (hN : n ≤ (N : ℤ)) {i : ℕ}
    (hi : i < N + 1) :
    vget (generateInitialVector N n) i = if (i : ℤ) = n then 1 else 0 := by
  unfold generateInitialVector vget
  rw [if_pos ⟨h0, hN⟩]
  rcases eq_or_ne (i : ℤ) n with he | he
  · have htn : n.toNat = i := by omega
    rw [if_pos he, ← htn]
    exact getD_set_self _ _ _ (by simp; omega)
  · rw [if_neg he, getD_set_ne _ _ _ (by omega), getD_replicate _ _ hi]

lemma vget_genIV_out {N : ℕ} {n : ℤ} (h : n < 0 ∨ (N : ℤ) < n) (i : ℕ) :
    vget (generateInitialVector N n) i = 0 := by
  unfold generateInitialVector vget
  rw [if_neg (by omega)]
  rcases Nat.lt_or_ge i (N + 1) with hi | hi
  · exact getD_replicate _ _ hi
  · rw [List.getD_eq_getElem?_getD, List.getElem?_replicate, if_neg (by omega)]
    rfl

lemma identityMat_length (n : ℕ) : (identityMat n).length = n := by
  simp [identityMat]

lemma powLoop_identity {n : ℕ} (hn : 0 < n) :
    ∀ e : ℚ, powLoop (identityMat n) (identityMat n) e = some (identityMat n) := by
  have hmul : matrixMultiply (identityMat n) (identityMat n) = some (identityMat n) := by
    rw [matrixMultiply_eq_some (isMatrix_identityMat n) (isMatrix_identityMat n) hn hn,
        id_mul (isMatrix_identityMat n) hn]
  suffices h : ∀ (m : ℕ) (e : ℚ), (⌈e⌉).toNat ≤ m →
      powLoop (identityMat n) (identityMat n) e = some (identityMat n) by
    intro e
    exact h (⌈e⌉).toNat e le_rfl
  intro m
  induction m with
  | zero =>
    intro e he
    refine powLoop_nonpos _ _ _ fun h0 => ?_
    have h1 : (0 : ℤ) < ⌈e⌉ := by exact_mod_cast lt_of_lt_of_le h0 (Int.le_ceil e)
    omega
  | succ m ih =>
    intro e he
    by_cases h0 : 0 < e
    · rw [powLoop, dif_pos h0]
      have hnext : (⌈((⌊e / 2⌋ : ℤ) : ℚ)⌉).toNat ≤ m := by
        rw [Int.ceil_intCast]
        have h2 : ((⌊e / 2⌋ : ℤ) : ℚ) ≤ e / 2 := Int.floor_le _
        have h3 : e / 2 < e := by linarith
        have h4 : e ≤ ((⌈e⌉ : ℤ) : ℚ) := Int.le_ceil _
        have h1 : (⌊e / 2⌋ : ℤ) < ⌈e⌉ := by
          exact_mod_cast lt_of_le_of_lt h2 (lt_of_lt_of_le h3 h4)
        have h5 : (0 : ℤ) < ⌈e⌉ := by exact_mod_cast lt_of_lt_of_le h0 h4
        omega
      split
      · simp only [hmul, Option.some_bind]
        exact ih _ hnext
      · simp only [hmul, Option.some_bind]
        exact ih _ hnext
    · exact powLoop_nonpos _ _ _ h0

lemma matrixPower_identity {n : ℕ} (hn : 0 < n) (k : ℚ) :
    matrixPower (identityMat n) k = some (identityMat n) := by
  unfold matrixPower
  by_cases h0 : k = 0
  · rw [if_pos h0, identityMat_length]
  · rw [if_neg h0]
    by_cases h1 : k = 1
    · rw [if_pos h1]
    · rw [if_neg h1, identityMat_length]
      exact powLoop_identity hn k

lemma seqSteps_eq {n : ℕ} {M : List (List ℚ)} (hM : IsMatrix n n M) (hn : 0 < n) :
    ∀ (k : ℕ) (v : List ℚ), v.length = n →
      seqSteps M k v = some (vmmTotal v (refPow M k)) := by
  intro k
  induction k with
  | zero =>
    intro v hv
    show some v = some (vmmTotal v (identityMat M.length))
    rw [hM.1, vmmTotal_id hn hv]
  | succ k ih =>
    intro v hv
    show (vectorMatrixMultiply v M).bind (seqSteps M k) = _
    rw [vectorMatrixMultiply_eq_some (isMatrix_ne_nil hM hn)
        (le_of_eq (hv.trans hM.1.symm))]
    simp only [Option.some_bind]
    rw [ih (vmmTotal v M) (by rw [length_vmmTotal, headI_length hM hn]),
        ← refPow_succ_left hM hn k,
        vmmTotal_assoc hM (isMatrix_refPow hM hn k) hn hn hv]


/-! The claims. -/

/-- C1: For every distribution vector π of length N+1, every (N+1)×(N+1)
matrix M and every integer k ≥ 0, computing `power(M,k)` and then
`advanceVector(π, M^k)` (as `advanceSteps` does) yields the same vector as
applying `advanceVector` to π with M sequentially k times. -/
theorem C1_oneshot_eq_sequential (N : ℕ) (M : List (List ℚ)) (v : List ℚ) (k : ℕ)
    (hM : IsMatrix (N + 1) (N + 1) M) (hv : v.length = N + 1) :
    (matrixPower M (k : ℚ)).bind (fun Pk => vectorMatrixMultiply v Pk)
      = seqSteps M k v := by
  have hn : 0 < N + 1 := Nat.succ_pos N
  rw [matrixPower_natCast hM hn k]
  simp only [Option.some_bind]
  rw [vectorMatrixMultiply_eq_some (isMatrix_ne_nil (isMatrix_refPow hM hn k) hn)
        (le_of_eq (hv.trans (isMatrix_refPow hM hn k).1.symm)),
      seqSteps_eq hM hn k v hv]

/-- Witness for C1 at N = 1, M = [[1/2,1/2],[1/2,1/2]], π = [1,0], k = 1. -/
theorem C1_witness :
    (matrixPower [[1/2, 1/2], [1/2, 1/2]] ((1 : ℕ) : ℚ)).bind
        (fun Pk => vectorMatrixMultiply [1, 0] Pk)
      = seqSteps [[1/2, 1/2], [1/2, 1/2]] 1 [1, 0] :=
  C1_oneshot_eq_sequential 1 [[1/2, 1/2], [1/2, 1/2]] [1, 0] 1 (by decide) (by decide)

/-- C2 counterexample: at N = 2, p = 0 (allowed by the claim, p ∈ [0,1]),
the interior row 1 of the generated matrix is [1, 0, 0]: it has exactly one
nonzero entry, not two — the entry p at column i+1 is zero. -/
theorem C2_cex :
    (generateTransitionMatrix 2 0).getD 1 [] = [1, 0, 0] ∧
    (((generateTransitionMatrix 2 0).getD 1 []).filter fun x => x ≠ 0).length = 1 := by
  have h : (generateTransitionMatrix 2 0).getD 1 [] = [1, 0, 0] := by
    norm_num [generateTransitionMatrix, genRowStep, List.range_succ]
    all_goals first | rfl | simp
  refine ⟨h, ?_⟩
  rw [h]
  norm_num

/-- C2 (amended): for N ≥ 1 and p ∈ [0,1], `buildTransitionMatrix(N,p)` is an
(N+1)×(N+1) matrix, every row sums to 1, rows 0 and N are one-hot at the
diagonal, and every interior row i has value 1-p at column i-1, value p at
column i+1 and 0 everywhere else (hence at most two nonzero entries, and
exactly two only when 0 < p < 1). -/
theorem C2_transition_matrix_shape (N : ℕ) (p : ℚ) (hN : 1 ≤ N) (hp0 : 0 ≤ p)
    (hp1 : p ≤ 1) :
    IsMatrix (N + 1) (N + 1) (generateTransitionMatrix N p) ∧
    (∀ r, r < N + 1 → ((generateTransitionMatrix N p).getD r []).sum = 1) ∧
    (∀ j, j < N + 1 → mget (generateTransitionMatrix N p) 0 j
      = if j = 0 then 1 else 0) ∧
    (∀ j, j < N + 1 → mget (generateTransitionMatrix N p) N j
      = if j = N then 1 else 0) ∧
    (∀ i, 0 < i → i < N →
      mget (generateTransitionMatrix N p) i (i - 1) = 1 - p ∧
      mget (generateTransitionMatrix N p) i (i + 1) = p ∧
      ∀ j, j < N + 1 → j ≠ i - 1 → j ≠ i + 1 →
        mget (generateTransitionMatrix N p) i j = 0) := by
  refine ⟨isMatrix_genT N p, fun r hr => targetRow_sum p hr, ?_, ?_, ?_⟩
  · intro j hj
    rw [mget_genT (by omega) hj, if_pos (Or.inl rfl)]
  · intro j hj
    rw [mget_genT (by omega) hj, if_pos (Or.inr rfl)]
  · intro i hi0 hiN
    have hir : i < N + 1 := by omega
    refine ⟨?_, ?_, ?_⟩
    · rw [mget_genT hir (by omega), if_neg (by omega), if_pos rfl]
    · rw [mget_genT hir (by omega), if_neg (by omega), if_neg (by omega), if_pos rfl]
    · intro j hj hj1 hj2
      rw [mget_genT hir hj, if_neg (by omega), if_neg hj1, if_neg hj2]

/-- Witness for C2 at N = 2, p = 1/2: row 1 of the generated matrix sums to 1. -/
theorem C2_witness : ((generateTransitionMatrix 2 (1/2)).getD 1 []).sum = 1 :=
  (C2_transition_matrix_shape 2 (1/2) (by norm_num) (by norm_num) (by norm_num)).2.1
    1 (by norm_num)

/-- C3: for every vector π summing to 1 and every matrix M with length(π)
rows, each of the same length and each summing to 1, `advanceVector(π, M)`
succeeds and its entries sum to 1. -/
theorem C3_probability_conservation (v : List ℚ) (M : List (List ℚ)) (c : ℕ)
    (hrect : ∀ row ∈ M, row.length = c) (hrows : ∀ row ∈ M, row.sum = 1)
    (hlen : v.length = M.length) (hv : v.sum = 1) :
    vectorMatrixMultiply v M = some (vmmTotal v M) ∧ (vmmTotal v M).sum = 1 := by
  have hMne : M ≠ [] := by
    intro h
    rw [h] at hlen
    simp at hlen
    rw [sum_getD, hlen] at hv
    simp at hv
  have hmat : IsMatrix M.length c M := ⟨rfl, hrect⟩
  have hm0 : 0 < M.length := List.length_pos.mpr hMne
  have hhead : M.headI.length = c := headI_length hmat hm0
  refine ⟨vectorMatrixMultiply_eq_some hMne (le_of_eq hlen), ?_⟩
  rw [sum_getD, length_vmmTotal, hhead]
  have hentries : ∀ j ∈ Finset.range c, (vmmTotal v M).getD j 0
      = ∑ i ∈ Finset.range v.length, vget v i * mget M i j := by
    intro j hj
    exact vget_vmmTotal v M (by rw [hhead]; exact Finset.mem_range.mp hj)
  rw [Finset.sum_congr rfl hentries, Finset.sum_comm]
  have hrowsum : ∀ i ∈ Finset.range v.length,
      ∑ j ∈ Finset.range c, vget v i * mget M i j = vget v i := by
    intro i hi
    have hiM : i < M.length := by
      rw [← hlen]
      exact Finset.mem_range.mp hi
    have hmem : M.getD i [] ∈ M := by
      rw [getD_eq_getElem [] hiM]
      exact List.getElem_mem hiM
    have hsum : ∑ j ∈ Finset.range c, mget M i j = 1 := by
      have h1 := sum_getD (M.getD i [])
      rw [hrows _ hmem, hrect _ hmem] at h1
      exact h1.symm
    rw [← Finset.mul_sum, hsum, mul_one]
  rw [Finset.sum_congr rfl hrowsum]
  simp only [vget]
  rw [← sum_getD, hv]

/-- Witness for C3 at π = [1/2, 1/2], M = [[1/2, 1/2], [0, 1]]. -/
theorem C3_witness : (vmmTotal [1/2, 1/2] [[1/2, 1/2], [0, 1]]).sum = 1 :=
  (C3_probability_conservation [1/2, 1/2] [[1/2, 1/2], [0, 1]] 2
    (by intro row hrow; fin_cases hrow <;> rfl)
    (by intro row hrow; fin_cases hrow <;> norm_num)
    (by rfl) (by norm_num)).2

/-- C4 counterexample: for the empty (0×0) square matrix, `power(M, 0+0)`
succeeds (returning the empty identity) while `multiply(power(M,0), power(M,0))`
throws (reading `A[0].length` of an empty array), so the claimed equality
fails at M = [], k1 = k2 = 0. -/
theorem C4_cex :
    matrixPower ([] : List (List ℚ)) (((0 + 0 : ℕ)) : ℚ) = some [] ∧
    (matrixPower ([] : List (List ℚ)) ((0 : ℕ) : ℚ)).bind
      (fun A => (matrixPower ([] : List (List ℚ)) ((0 : ℕ) : ℚ)).bind
        (fun B => matrixMultiply A B)) = none := by
  constructor
  · norm_num [matrixPower, identityMat]
  · norm_num [matrixPower, identityMat, matrixMultiply]

/-- C4 (amended): for every nonempty square matrix M and k1, k2 ≥ 0,
`power(M, k1+k2)` equals `multiply(power(M,k1), power(M,k2))`; moreover
`power(A,0)` is the identity of matching size and `power(A,1)` is A itself
for any matrix A whatsoever — in particular for any square A, the empty
(0×0) matrix included. -/
theorem C4_power_add (n : ℕ) (M : List (List ℚ)) (k1 k2 : ℕ)
    (hM : IsMatrix n n M) (hn : 0 < n) :
    matrixPower M (((k1 + k2 : ℕ)) : ℚ)
      = (matrixPower M ((k1 : ℕ) : ℚ)).bind
          (fun A => (matrixPower M ((k2 : ℕ) : ℚ)).bind (fun B => matrixMultiply A B)) ∧
    (∀ A : List (List ℚ), matrixPower A 0 = some (identityMat A.length)) ∧
    (∀ A : List (List ℚ), matrixPower A 1 = some A) := by
  refine ⟨?_, ?_, ?_⟩
  · rw [matrixPower_natCast hM hn, matrixPower_natCast hM hn, matrixPower_natCast hM hn]
    simp only [Option.some_bind]
    rw [matrixMultiply_eq_some (isMatrix_refPow hM hn k1) (isMatrix_refPow hM hn k2) hn hn,
        refPow_add hM hn k1 k2]
  · intro A
    unfold matrixPower
    rw [if_pos rfl]
  · intro A
    unfold matrixPower
    rw [if_neg (by norm_num), if_pos rfl]

/-- Witness for C4 at M = [[2]], k1 = 1, k2 = 0. -/
theorem C4_witness :
    matrixPower [[2]] (((1 + 0 : ℕ)) : ℚ)
      = (matrixPower [[2]] ((1 : ℕ) : ℚ)).bind
          (fun A => (matrixPower [[2]] ((0 : ℕ) : ℚ)).bind (fun B => matrixMultiply A B)) :=
  (C4_power_add 1 [[2]] 1 0 (by decide) (by decide)).1

/-- C5 counterexample: `power([[2]], -1)` raises no error at all — the
`while (exp > 0)` loop never runs for negative k, so the identity matrix is
returned, contradicting the claimed InvalidExponent error. -/
theorem C5_cex : matrixPower [[2]] (-1) = some [[1]] := by
  rw [matrixPower_neg _ (by norm_num)]
  rfl

/-- C5 (amended): `power` performs no validation of k.  For every negative k
it returns the identity matrix of matching size without error, and for every
non-negative integer k on a nonempty square matrix it also succeeds (no
error is raised on that path either, as the claim's parenthetical states). -/
theorem C5_no_exponent_validation (M : List (List ℚ)) (n : ℕ) (k : ℚ) (kN : ℕ)
    (hM : IsMatrix n n M) (hn : 0 < n) (hk : k < 0) :
    matrixPower M k = some (identityMat M.length) ∧
    matrixPower M (kN : ℚ) = some (refPow M kN) :=
  ⟨matrixPower_neg M hk, matrixPower_natCast hM hn kN⟩

/-- Witness for C5 at M = [[2]], k = -1, kN = 2. -/
theorem C5_witness : matrixPower [[2]] (-1) = some (identityMat ([[(2 : ℚ)]].length)) :=
  (C5_no_exponent_validation [[2]] 1 (-1) 2 (by decide) (by decide) (by norm_num)).1

/-- C6 counterexample: a vector strictly shorter than the matrix (1 ≠ 2)
does not raise DimensionMismatch — `advanceVector` silently succeeds,
computing the partial sums over the existing vector entries. -/
theorem C6_cex :
    ([(1 : ℚ)] : List ℚ).length ≠ ([[1, 0], [0, 1]] : List (List ℚ)).length ∧
    vectorMatrixMultiply [1] [[1, 0], [0, 1]] = some [1, 0] := by
  constructor
  · decide
  · norm_num [vectorMatrixMultiply, vmmTotal, vget, mget, Finset.sum_range_succ,
      List.range_succ]
    all_goals first | rfl | simp

/-- C6 (amended): `advanceVector` performs no dimension check.  When
length(π) ≤ rows(M) it succeeds (even on mismatch), returning the vector
with entries π'[j] = Σ over i < length(π) of π[i]·M[i][j] — the claimed
formula when the lengths are equal; when length(π) > rows(M) and M has at
least one column it fails with a type error (reading an undefined row),
not a DimensionMismatch. -/
theorem C6_no_dimension_check (v : List ℚ) (M : List (List ℚ)) (hM : M ≠ []) :
    (v.length ≤ M.length → vectorMatrixMultiply v M = some (vmmTotal v M)) ∧
    (0 < M.headI.length → M.length < v.length → vectorMatrixMultiply v M = none) ∧
    (v.length = M.length → ∀ j, j < M.headI.length →
      vget (vmmTotal v M) j = ∑ i ∈ Finset.range v.length, vget v i * mget M i j) := by
  refine ⟨fun h => vectorMatrixMultiply_eq_some hM h, fun h1 h2 => ?_,
    fun _ j hj => vget_vmmTotal v M hj⟩
  unfold vectorMatrixMultiply
  rw [if_neg hM, if_pos ⟨h1, h2⟩]

/-- Witness for C6 at π = [1], M = [[1,0],[0,1]] (the mismatched-but-successful case). -/
theorem C6_witness :
    vectorMatrixMultiply [1] [[1, 0], [0, 1]] = some (vmmTotal [1] [[1, 0], [0, 1]]) :=
  (C6_no_dimension_check [1] [[1, 0], [0, 1]] (by simp)).1 (by simp)

/-- C7: in a ready session, `advance(0)` and `advance(NaN)` behave exactly
as `advance(1)` (the coercion `if (k < 1 || isNaN(k)) k = 1`); `advance(1)`
multiplies the current vector by the one-step matrix once and adds 1 to the
step counter; and for every integer k ≥ 1 a successful `advance(k)`
increases the step counter by exactly k. -/
theorem C7_advance_coercion (s : SimState) :
    advanceSteps (some 0) s = advanceSteps (some 1) s ∧
    advanceSteps none s = advanceSteps (some 1) s ∧
    advanceSteps (some 1) s
      = (vectorMatrixMultiply s.currentVector s.transitionMatrix).bind
          (fun v2 => some ⟨s.Nglob, s.nglob, s.pglob, s.currentStep + 1,
            s.transitionMatrix, v2⟩) ∧
    (∀ k : ℕ, 1 ≤ k → ∀ s2, advanceSteps (some (k : ℚ)) s = some s2 →
      s2.currentStep = s.currentStep + (k : ℚ)) := by
  have hc0 : coerceStep (some 0) = 1 := by
    show (if (0 : ℚ) < 1 then (1 : ℚ) else 0) = 1
    rw [if_pos (by norm_num)]
  have hc1 : coerceStep (some 1) = 1 := by
    show (if (1 : ℚ) < 1 then (1 : ℚ) else 1) = 1
    rw [if_neg (by norm_num)]
  have hcn : coerceStep none = 1 := rfl
  have hpow : matrixPower s.transitionMatrix 1 = some s.transitionMatrix := by
    unfold matrixPower
    rw [if_neg (by norm_num), if_pos rfl]
  refine ⟨?_, ?_, ?_, ?_⟩
  · unfold advanceSteps
    rw [hc0, hc1]
  · unfold advanceSteps
    rw [hcn, hc1]
  · unfold advanceSteps
    rw [hc1, hpow]
    simp only [Option.some_bind]
  · intro k hk s2 hs2
    have hck : coerceStep (some (k : ℚ)) = (k : ℚ) := by
      show (if (k : ℚ) < 1 then (1 : ℚ) else (k : ℚ)) = (k : ℚ)
      rw [if_neg (by exact_mod_cast not_lt.mpr hk)]
    unfold advanceSteps at hs2
    rw [hck] at hs2
    cases hP : matrixPower s.transitionMatrix (k : ℚ) with
    | none =>
      rw [hP] at hs2
      simp at hs2
    | some Pk =>
      rw [hP] at hs2
      simp only [Option.some_bind] at hs2
      cases hV : vectorMatrixMultiply s.currentVector Pk with
      | none =>
        rw [hV] at hs2
        simp at hs2
      | some v2 =>
        rw [hV] at hs2
        simp only [Option.some_bind, Option.some_inj] at hs2
        rw [← hs2]

/-- Witness for C7: a concrete ready session (N = 2, n = 1, p = 1/2) advanced
by k = 1 lands on step 0 + 1. -/
theorem C7_witness :
    (SimState.mk 2 1 (1/2) (0 + ((1 : ℕ) : ℚ)) (generateTransitionMatrix 2 (1/2))
      [1/2, 0, 1/2]).currentStep = (0 : ℚ) + ((1 : ℕ) : ℚ) :=
  (C7_advance_coercion
    (SimState.mk 2 1 (1/2) 0 (generateTransitionMatrix 2 (1/2)) [0, 1, 0])).2.2.2
    1 le_rfl
    (SimState.mk 2 1 (1/2) (0 + ((1 : ℕ) : ℚ)) (generateTransitionMatrix 2 (1/2))
      [1/2, 0, 1/2])
    (by norm_num [advanceSteps, coerceStep, matrixPower, vectorMatrixMultiply, vmmTotal,
      vget, mget, generateTransitionMatrix, genRowStep, Finset.sum_range_succ,
      List.range_succ]
        <;> first | rfl | simp)

/-- C9: `buildInitialVector(N, n)` is a vector of length N+1 which is one-hot
at index n when 0 ≤ n ≤ N, and the all-zero vector when n is out of range
(no clamping at this layer). -/
theorem C9_initial_vector (N : ℕ) (n : ℤ) :
    (generateInitialVector N n).length = N + 1 ∧
    (0 ≤ n → n ≤ (N : ℤ) → ∀ i, i < N + 1 →
      vget (generateInitialVector N n) i = if (i : ℤ) = n then 1 else 0) ∧
    ((n < 0 ∨ (N : ℤ) < n) → ∀ i, vget (generateInitialVector N n) i = 0) := by
  refine ⟨genIV_length N n, ?_, ?_⟩
  · intro h0 hN i hi
    exact vget_genIV_in h0 hN hi
  · intro h i
    exact vget_genIV_out h i

/-- Witness for C9 at N = 2, n = 1: the entry at index 1 is 1. -/
theorem C9_witness : vget (generateInitialVector 2 1) 1 = 1 := by
  have h := (C9_initial_vector 2 1).2.1 (by norm_num) (by norm_num) 1 (by norm_num)
  simpa using h

/-- C10: for every p ∈ [0,1], `buildTransitionMatrix(1, p)` is the 2×2
identity matrix [[1,0],[0,1]] (independent of p); every matrix power of it
is again that identity, and multiplying any length-2 distribution vector by
it leaves the vector unchanged — so every subsequent advance is a no-op on
the distribution. -/
theorem C10_unit_chain_identity (p : ℚ) (hp0 : 0 ≤ p) (hp1 : p ≤ 1) :
    generateTransitionMatrix 1 p = [[1, 0], [0, 1]] ∧
    (∀ k : ℚ, matrixPower (generateTransitionMatrix 1 p) k = some [[1, 0], [0, 1]]) ∧
    (∀ v : List ℚ, v.length = 2 →
      vectorMatrixMultiply v (generateTransitionMatrix 1 p) = some v) := by
  have hid : identityMat 2 = [[1, 0], [0, 1]] := rfl
  have hT : generateTransitionMatrix 1 p = [[1, 0], [0, 1]] := by
    norm_num [generateTransitionMatrix, genRowStep, List.range_succ]
    all_goals first | rfl | simp
  refine ⟨hT, ?_, ?_⟩
  · intro k
    rw [hT, ← hid, matrixPower_identity (by norm_num) k]
  · intro v hv
    rw [hT, ← hid,
        vectorMatrixMultiply_eq_some (by decide)
          (by rw [hv, identityMat_length]),
        vmmTotal_id (by norm_num) hv]

/-- Witness for C10 at p = 1/2. -/
theorem C10_witness : generateTransitionMatrix 1 (1/2) = [[1, 0], [0, 1]] :=
  (C10_unit_chain_identity (1/2) (by norm_num) (by norm_num)).1
